import Mathlib

/-!
# Formal model of the esprit2 multiplayer turn engine

A shallow embedding of the networking / turn-scheduling core of the
esprit2 repository:

* the wire codec for the two packet families and the length-prefixed
  frame layer (the `protocol` module is not among the provided sources,
  so the codec is modelled from the specification's description of the
  wire format);
* the server's per-client tick (`client_tick` in `server/src/lib.rs`),
  the `instance` loop's accept / dispatch / timeout / broadcast phases,
  and the legacy per-connection loop of `server/src/main.rs`;
* the consideration list (`consider.rs`), status infliction
  (`character.rs` / `status.rs`), derived stats (`Piece::stat_outcomes`)
  and spell affinity magnitudes (`spell.rs`).

Machine integers are modelled as `Nat` / `Int` with explicit reduction
modulo `2^32` wherever the `u32` semantics matter.
-/

namespace Esprit

/-! ### Wire codec primitives

Modelled from the spec: the `protocol` module (wire codec) is not in the
provided sources.  The spec requires every frame to be
`[u32 little-endian length][payload bytes]` and the payload to be a
self-describing encoding of exactly one packet variant.  Bytes are
modelled as natural numbers; a `u32` is stored as four little-endian
bytes. -/

def encodeU32 (n : Nat) : List Nat :=
  [n % 256, n / 256 % 256, n / 65536 % 256, n / 16777216 % 256]

def decodeU32 : List Nat → Option (Nat × List Nat)
  | b0 :: b1 :: b2 :: b3 :: rest =>
    some (b0 + 256 * b1 + 65536 * b2 + 16777216 * b3, rest)
  | _ => none

/-- Two's-complement encoding of an `i32`. -/
def encodeI32 (x : Int) : List Nat :=
  encodeU32 (x % 4294967296).toNat

def decodeI32 (b : List Nat) : Option (Int × List Nat) :=
  match decodeU32 b with
  | some (n, rest) =>
    some (if n < 2147483648 then (n : Int) else (n : Int) - 4294967296, rest)
  | none => none

/-- A length-prefixed byte string. -/
def encodeBytes (s : List Nat) : List Nat :=
  encodeU32 s.length ++ s

def decodeBytes (b : List Nat) : Option (List Nat × List Nat) :=
  match decodeU32 b with
  | some (len, rest) =>
    if len ≤ rest.length then some (rest.take len, rest.drop len) else none
  | none => none

theorem decodeU32_encodeU32 (n : Nat) (r : List Nat) (h : n < 4294967296) :
    decodeU32 (encodeU32 n ++ r) = some (n, r) := by
  simp only [encodeU32, decodeU32, List.cons_append, List.nil_append,
    Option.some.injEq, Prod.mk.injEq]
  exact ⟨by omega, trivial⟩

theorem decodeI32_encodeI32 (x : Int) (r : List Nat)
    (h1 : -2147483648 ≤ x) (h2 : x < 2147483648) :
    decodeI32 (encodeI32 x ++ r) = some (x, r) := by
  have hlt : (x % 4294967296).toNat < 4294967296 := by omega
  simp only [encodeI32, decodeI32, decodeU32_encodeU32 _ _ hlt,
    Option.some.injEq, Prod.mk.injEq]
  exact ⟨by split <;> omega, trivial⟩

theorem decodeBytes_encodeBytes (s r : List Nat) (h : s.length < 4294967296) :
    decodeBytes (encodeBytes s ++ r) = some (s, r) := by
  simp only [encodeBytes, decodeBytes, List.append_assoc,
    decodeU32_encodeU32 _ _ h]
  rw [if_pos (by simp)]
  simp [List.take_append, List.drop_append]

/-! ### Data model

`Character` is the serializable projection of an actor ("piece") carried
by a `World` snapshot: position, resource pools, readiness delay, control
flag and alliance (spec §3, "Actor").  The `world` module itself is not
in the provided sources, so the snapshot is modelled from the spec. -/

inductive Alliance
  | friendly
  | enemy
  deriving DecidableEq, Repr

structure Character where
  x : Int
  y : Int
  hp : Int
  sp : Int
  actionDelay : Nat
  playerControlled : Bool
  alliance : Alliance
  deriving DecidableEq, Repr

structure World where
  characters : List Character
  deriving DecidableEq, Repr

/-- Modelled from the spec: `character::Action` — "Anything a character
piece can `do`" (Wait / Move / Attack / Cast).  The attack and cast
variants reference their resource by id on the wire; the serialized
`Action` payload format itself is part of the missing `protocol`
module. -/
inductive Action
  | wait (time : Nat)
  | move (x y : Int)
  | attack (id : List Nat)
  | cast (id : List Nat)
  deriving DecidableEq, Repr

/-- Client→server packets: `Ping`, `Action`, `Authenticate`, `Route`
(spec §3 / §6).  The authentication credentials and routing token are
length-prefixed byte strings. -/
inductive ClientPacket
  | ping
  | action (a : Action)
  | authenticate (username : List Nat)
  | route (token : List Nat)
  deriving DecidableEq, Repr

/-- Server→client packets: `Ping`, `Message(text)`, `World(snapshot)`
(spec §3 / §6). -/
inductive ServerPacket
  | ping
  | message (text : List Nat)
  | world (w : World)
  deriving DecidableEq, Repr

/-! ### Packet encoding

Modelled from the spec: a payload is "a self-describing archived
encoding of exactly one Packet variant".  Each variant is written as a
tag byte followed by its fields; integers are 4-byte little-endian. -/

def encodeCharacter (c : Character) : List Nat :=
  encodeI32 c.x ++ encodeI32 c.y ++ encodeI32 c.hp ++ encodeI32 c.sp ++
    encodeU32 c.actionDelay ++
    [if c.playerControlled then 1 else 0,
     if c.alliance = Alliance.friendly then 0 else 1]

def decodeCharacter (b : List Nat) : Option (Character × List Nat) :=
  match decodeI32 b with
  | none => none
  | some (x, b) =>
  match decodeI32 b with
  | none => none
  | some (y, b) =>
  match decodeI32 b with
  | none => none
  | some (hp, b) =>
  match decodeI32 b with
  | none => none
  | some (sp, b) =>
  match decodeU32 b with
  | none => none
  | some (delay, b) =>
  match b with
  | pc :: al :: b =>
    if pc ≤ 1 ∧ al ≤ 1 then
      some (⟨x, y, hp, sp, delay, pc = 1,
             if al = 0 then Alliance.friendly else Alliance.enemy⟩, b)
    else none
  | _ => none

def encodeCharacterList (cs : List Character) : List Nat :=
  (cs.map encodeCharacter).flatten

def decodeCharacterList : Nat → List Nat → Option (List Character × List Nat)
  | 0, b => some ([], b)
  | n + 1, b =>
    match decodeCharacter b with
    | none => none
    | some (c, b) =>
      match decodeCharacterList n b with
      | none => none
      | some (cs, b) => some (c :: cs, b)

def encodeWorld (w : World) : List Nat :=
  encodeU32 w.characters.length ++ encodeCharacterList w.characters

def decodeWorld (b : List Nat) : Option (World × List Nat) :=
  match decodeU32 b with
  | none => none
  | some (n, b) =>
    match decodeCharacterList n b with
    | none => none
    | some (cs, b) => some (⟨cs⟩, b)

def encodeAction : Action → List Nat
  | .wait t => 0 :: encodeU32 t
  | .move x y => 1 :: (encodeI32 x ++ encodeI32 y)
  | .attack id => 2 :: encodeBytes id
  | .cast id => 3 :: encodeBytes id

def decodeAction (b : List Nat) : Option (Action × List Nat) :=
  match b with
  | 0 :: b =>
    match decodeU32 b with
    | none => none
    | some (t, b) => some (.wait t, b)
  | 1 :: b =>
    match decodeI32 b with
    | none => none
    | some (x, b) =>
      match decodeI32 b with
      | none => none
      | some (y, b) => some (.move x y, b)
  | 2 :: b =>
    match decodeBytes b with
    | none => none
    | some (id, b) => some (.attack id, b)
  | 3 :: b =>
    match decodeBytes b with
    | none => none
    | some (id, b) => some (.cast id, b)
  | _ => none

def encodeClientPacket : ClientPacket → List Nat
  | .ping => [0]
  | .action a => 1 :: encodeAction a
  | .authenticate u => 2 :: encodeBytes u
  | .route t => 3 :: encodeBytes t

/-- Decoding consumes the whole payload: a payload carries exactly one
packet variant (spec §3). -/
def decodeClientPacket (b : List Nat) : Option ClientPacket :=
  match b with
  | [0] => some .ping
  | 1 :: b =>
    match decodeAction b with
    | some (a, []) => some (.action a)
    | _ => none
  | 2 :: b =>
    match decodeBytes b with
    | some (u, []) => some (.authenticate u)
    | _ => none
  | 3 :: b =>
    match decodeBytes b with
    | some (t, []) => some (.route t)
    | _ => none
  | _ => none

def encodeServerPacket : ServerPacket → List Nat
  | .ping => [0]
  | .message m => 1 :: encodeBytes m
  | .world w => 2 :: encodeWorld w

def decodeServerPacket (b : List Nat) : Option ServerPacket :=
  match b with
  | [0] => some .ping
  | 1 :: b =>
    match decodeBytes b with
    | some (m, []) => some (.message m)
    | _ => none
  | 2 :: b =>
    match decodeWorld b with
    | some (w, []) => some (.world w)
    | _ => none
  | _ => none

/-! ### The frame layer

Every frame on the wire is `[u32 little-endian length][payload]`; the
length is the exact byte count of the payload (spec §3). -/

def encodeFrame (payload : List Nat) : List Nat :=
  encodeU32 payload.length ++ payload

/-- `decodeFrame` yields one complete payload and the remaining bytes,
or `none` when more data is needed (a partial frame is not an error,
spec §4.2). -/
def decodeFrame (b : List Nat) : Option (List Nat × List Nat) :=
  match decodeU32 b with
  | none => none
  | some (len, rest) =>
    if len ≤ rest.length then some (rest.take len, rest.drop len) else none

/-! ### Well-formedness: fields fit in their wire representation. -/

def I32Range (x : Int) : Prop := -2147483648 ≤ x ∧ x < 2147483648

instance (x : Int) : Decidable (I32Range x) := by
  unfold I32Range; infer_instance

def Character.WF (c : Character) : Prop :=
  I32Range c.x ∧ I32Range c.y ∧ I32Range c.hp ∧ I32Range c.sp ∧
    c.actionDelay < 4294967296

instance (c : Character) : Decidable c.WF := by
  unfold Character.WF; infer_instance

def World.WF (w : World) : Prop :=
  w.characters.length < 4294967296 ∧ ∀ c ∈ w.characters, c.WF

instance (w : World) : Decidable w.WF := by
  unfold World.WF; infer_instance

def Action.WF : Action → Prop
  | .wait t => t < 4294967296
  | .move x y => I32Range x ∧ I32Range y
  | .attack id => id.length < 4294967296
  | .cast id => id.length < 4294967296

instance (a : Action) : Decidable a.WF := by
  cases a <;> · unfold Action.WF; infer_instance

def ClientPacket.WF : ClientPacket → Prop
  | .ping => True
  | .action a => a.WF
  | .authenticate u => u.length < 4294967296
  | .route t => t.length < 4294967296

instance (p : ClientPacket) : Decidable p.WF := by
  cases p <;> · unfold ClientPacket.WF; infer_instance

def ServerPacket.WF : ServerPacket → Prop
  | .ping => True
  | .message m => m.length < 4294967296
  | .world w => w.WF

instance (p : ServerPacket) : Decidable p.WF := by
  cases p <;> · unfold ServerPacket.WF; infer_instance

/-! ### Codec round trips -/

theorem decodeCharacter_encodeCharacter (c : Character) (r : List Nat)
    (h : c.WF) : decodeCharacter (encodeCharacter c ++ r) = some (c, r) := by
  obtain ⟨x, y, hp, sp, d, pc, al⟩ := c
  obtain ⟨hx, hy, hhp, hsp, hd⟩ := h
  simp only [encodeCharacter, decodeCharacter, List.append_assoc,
    List.cons_append, List.nil_append,
    decodeI32_encodeI32 _ _ hx.1 hx.2, decodeI32_encodeI32 _ _ hy.1 hy.2,
    decodeI32_encodeI32 _ _ hhp.1 hhp.2, decodeI32_encodeI32 _ _ hsp.1 hsp.2,
    decodeU32_encodeU32 _ _ hd]
  cases pc <;> cases al <;> simp

theorem decodeCharacterList_encodeCharacterList (cs : List Character)
    (r : List Nat) (h : ∀ c ∈ cs, c.WF) :
    decodeCharacterList cs.length (encodeCharacterList cs ++ r) =
      some (cs, r) := by
  induction cs with
  | nil => rfl
  | cons c cs ih =>
    have hc : c.WF := h c (List.mem_cons_self c cs)
    have hcs : ∀ x ∈ cs, x.WF := fun x hx => h x (List.mem_cons_of_mem c hx)
    simp only [encodeCharacterList, List.map_cons, List.flatten_cons,
      List.length_cons, decodeCharacterList, List.append_assoc]
    rw [decodeCharacter_encodeCharacter c _ hc]
    have := ih hcs
    simp only [encodeCharacterList] at this
    simp only [this]

theorem decodeWorld_encodeWorld (w : World) (r : List Nat) (h : w.WF) :
    decodeWorld (encodeWorld w ++ r) = some (w, r) := by
  obtain ⟨cs⟩ := w
  obtain ⟨hlen, hcs⟩ := h
  simp only [encodeWorld, decodeWorld, List.append_assoc,
    decodeU32_encodeU32 _ _ hlen]
  rw [decodeCharacterList_encodeCharacterList cs r hcs]

theorem decodeAction_encodeAction (a : Action) (r : List Nat) (h : a.WF) :
    decodeAction (encodeAction a ++ r) = some (a, r) := by
  cases a with
  | wait t =>
    simp only [encodeAction, decodeAction, List.cons_append,
      decodeU32_encodeU32 _ _ h]
  | move x y =>
    simp only [encodeAction, decodeAction, List.cons_append, List.append_assoc,
      decodeI32_encodeI32 _ _ h.1.1 h.1.2]
    rw [decodeI32_encodeI32 _ _ h.2.1 h.2.2]
  | attack id =>
    simp only [encodeAction, decodeAction, List.cons_append,
      decodeBytes_encodeBytes _ _ h]
  | cast id =>
    simp only [encodeAction, decodeAction, List.cons_append,
      decodeBytes_encodeBytes _ _ h]

theorem decodeClientPacket_encodeClientPacket (p : ClientPacket)
    (h : p.WF) : decodeClientPacket (encodeClientPacket p) = some p := by
  cases p with
  | ping => rfl
  | action a =>
    have := decodeAction_encodeAction a [] h
    simp only [List.append_nil] at this
    simp [encodeClientPacket, decodeClientPacket, this]
  | authenticate u =>
    have := decodeBytes_encodeBytes u [] h
    simp only [List.append_nil] at this
    simp [encodeClientPacket, decodeClientPacket, this]
  | route t =>
    have := decodeBytes_encodeBytes t [] h
    simp only [List.append_nil] at this
    simp [encodeClientPacket, decodeClientPacket, this]

theorem decodeServerPacket_encodeServerPacket (p : ServerPacket)
    (h : p.WF) : decodeServerPacket (encodeServerPacket p) = some p := by
  cases p with
  | ping => rfl
  | message m =>
    have := decodeBytes_encodeBytes m [] h
    simp only [List.append_nil] at this
    simp [encodeServerPacket, decodeServerPacket, this]
  | world w =>
    have := decodeWorld_encodeWorld w [] h
    simp only [List.append_nil] at this
    simp [encodeServerPacket, decodeServerPacket, this]

theorem decodeFrame_encodeFrame (p r : List Nat) (h : p.length < 4294967296) :
    decodeFrame (encodeFrame p ++ r) = some (p, r) := by
  simp only [encodeFrame, decodeFrame, List.append_assoc,
    decodeU32_encodeU32 _ _ h]
  rw [if_pos (by simp)]
  simp [List.take_append, List.drop_append]

/-! ### World manager

Modelled from the spec: the `world` module (`world::Manager`,
`next_character`, `perform_action`) is not among the provided sources.
Per §4.4 the ready actor is the live actor with minimal `action_delay`,
ties broken by stable insertion order, and applying an action debits the
actor's readiness by the action's time cost and applies its direct
effects (movement is modelled concretely; combat effects are resolved by
external scripts and are abstracted into the readiness debit). -/

instance : Inhabited Character := ⟨⟨0, 0, 0, 0, 0, false, .enemy⟩⟩

def nextEntry (w : World) : Nat × Character :=
  match w.characters.enum with
  | [] => (0, default)
  | e :: es =>
    es.foldl
      (fun best cur =>
        if cur.2.actionDelay < best.2.actionDelay then cur else best) e

def nextCharacter (w : World) : Character := (nextEntry w).2

def nextCharacterIdx (w : World) : Nat := (nextEntry w).1

def applyActionTo (c : Character) : Action → Character
  | .wait t => { c with actionDelay := c.actionDelay + t }
  | .move x y => { c with x := x, y := y, actionDelay := c.actionDelay + 1 }
  | .attack _ => { c with actionDelay := c.actionDelay + 1 }
  | .cast _ => { c with actionDelay := c.actionDelay + 1 }

def updateAt : List Character → Nat → (Character → Character) →
    List Character
  | [], _, _ => []
  | c :: rest, 0, f => f c :: rest
  | c :: rest, n + 1, f => c :: updateAt rest n f

def performAction (w : World) (a : Action) : World :=
  ⟨updateAt w.characters (nextCharacterIdx w) (fun c => applyActionTo c a)⟩

/-! ### Session state and the per-client tick

From `server/src/lib.rs`.  A `Client` holds the last ping-reset time,
the optional authentication, the (never-populated, spec §9) owned-piece
set, the outbound packet queue and the frame payloads that arrived since
the last tick.  Time is in seconds; `TIMEOUT` is 10 s. -/

structure Client where
  ping : Nat
  authentication : Option (List Nat)
  ownedPieces : List Nat
  outQueue : List ServerPacket
  inbox : List (List Nat)
  deriving DecidableEq, Repr

/-- `Client::new`: fresh per-connection state. -/
def Client.new (now : Nat) : Client :=
  { ping := now, authentication := none, ownedPieces := [],
    outQueue := [], inbox := [] }

/-- The per-packet dispatch of `client_tick` (lib.rs lines 271–308):
`Ping` queues a reply and resets the liveness clock; `Action` is applied
through `perform_action` when the world's currently-ready actor is
player-controlled and otherwise rejected by queueing a `World` resync;
`Authenticate` stores the identity; `Route` is a no-op. -/
def handlePacket (now : Nat) (w : World) (c : Client) :
    ClientPacket → World × Client
  | .ping =>
    (w, { c with outQueue := c.outQueue ++ [.ping], ping := now })
  | .action a =>
    if (nextCharacter w).playerControlled then (performAction w a, c)
    else (w, { c with outQueue := c.outQueue ++ [.world w] })
  | .authenticate u => (w, { c with authentication := some u })
  | .route _ => (w, c)

inductive TickError
  | panic
  | timeout
  deriving DecidableEq, Repr

/-- The receive loop of `client_tick`: each inbound frame payload is
decoded with `rkyv::access(..).unwrap()` — a payload that is not a
well-formed packet panics (the `unwrap`) instead of producing an
error. -/
def processPayloads (now : Nat) :
    World → Client → List (List Nat) → Option (World × Client)
  | w, c, [] => some (w, c)
  | w, c, p :: rest =>
    match decodeClientPacket p with
    | none => none
    | some pkt =>
      let wc := handlePacket now w c pkt
      processPayloads now wc.1 wc.2 rest

/-- `client_tick` (lib.rs lines 249–321): flush (not modelled — writing
the queue does not change session or world state), receive and dispatch
each pending frame, then drop the session with `Error::Timeout` when
more than `TIMEOUT = 10` seconds have elapsed since the last ping
reset.  The world is threaded through even when the client errors. -/
def clientTick (now : Nat) (w : World) (c : Client) :
    World × Except TickError Client :=
  match processPayloads now w c c.inbox with
  | none => (w, .error .panic)
  | some (w1, c1) =>
    (w1,
      if 10 < now - c1.ping then .error .timeout
      else .ok { c1 with inbox := [] })

/-- The client loop of `instance` (lib.rs lines 218–227): tick every
client in order; a client whose tick errors is removed from the active
set ("client hangup") without touching the world; a panic propagates
and kills the instance.  (The source removes with `swap_remove`; the
model keeps the surviving clients in order, which no claim depends
on.) -/
def processClients (now : Nat) :
    World → List Client → Option (World × List Client)
  | w, [] => some (w, [])
  | w, c :: rest =>
    match clientTick now w c with
    | (_, .error .panic) => none
    | (w1, .error .timeout) => processClients now w1 rest
    | (w1, .ok c1) =>
      match processClients now w1 rest with
      | none => none
      | some (w2, cs) => some (w2, c1 :: cs)

/-- The accept phase of `instance` (lib.rs lines 213–216): every client
received from the router is immediately queued an outbound `Ping` and
pushed onto the active list. -/
def acceptClient (c : Client) : Client :=
  { c with outQueue := c.outQueue ++ [.ping] }

/-- `Server::tick` (lib.rs lines 108–125): when the ready actor is not
player-controlled, obtain considerations, let the decision policy pick
an action (`policy` models the consideration engine plus the
per-character decision script) and apply it, returning `true`; when the
ready actor is player-controlled, do nothing and return `false`. -/
def serverTick (policy : World → Action) (w : World) : World × Bool :=
  if (nextCharacter w).playerControlled then (w, false)
  else (performAction w (policy w), true)

def queueWorld (w : World) (c : Client) : Client :=
  { c with outQueue := c.outQueue ++ [.world w] }

/-- The scheduler phase of `instance` (lib.rs lines 235–245): when
`Server::tick` applied a non-player action, a full `World` snapshot is
queued to every connected client; otherwise the loop idles (1 ms
sleep). -/
def broadcastPhase (policy : World → Action) (w : World)
    (cs : List Client) : World × List Client :=
  match serverTick policy w with
  | (w1, true) => (w1, cs.map (queueWorld w1))
  | (w1, false) => (w1, cs)

/-- One iteration of the `instance` loop (lib.rs lines 212–246): accept
newly routed clients (queueing each a `Ping`), tick every client, then
run the scheduler and broadcast.  (The console fan-out phase only
copies log messages and is not modelled.)  `none` models a panic
escaping the loop. -/
def instanceStep (now : Nat) (policy : World → Action) (w : World)
    (incoming : List Client) (clients : List Client) :
    Option (World × List Client) :=
  match processClients now w (clients ++ incoming.map acceptClient) with
  | none => none
  | some (w1, cs1) => some (broadcastPhase policy w1 cs1)

/-- The prologue of `connection` (main.rs lines 91–100): immediately
after accept, before reading anything from the client, the server
writes a single frame containing a `World` snapshot.  (The preceding
`send_ping()` only resets the liveness clock and writes nothing.) -/
def connectionInitialFrames (w : World) : List (List Nat) :=
  [encodeFrame (encodeServerPacket (.world w))]

def isWorldPacket : ServerPacket → Bool
  | .world _ => true
  | _ => false

/-- The liveness clock is reset only at packet-receipt instants: a
dispatched packet either leaves `ping` unchanged or sets it to the
current time, so the time since the last reset never exceeds the time
since the last received packet. -/
theorem handlePacket_ping (now : Nat) (w : World) (c : Client)
    (p : ClientPacket) :
    (handlePacket now w c p).2.ping = c.ping ∨
      (handlePacket now w c p).2.ping = now := by
  cases p with
  | ping => right; rfl
  | action a =>
    left
    simp only [handlePacket]
    split <;> rfl
  | authenticate u => left; rfl
  | route t => left; rfl

/-! ### Considerations (`src/consider.rs`)

A `Consider` is an immutable candidate record: one action plus zero or
more heuristic tags.  `Considerations` wraps `Option<Vec<Consider>>`;
`for_each` takes the vector out of the option, so a second traversal
finds `None` and fails with a runtime error.  The Lua callback is
modelled as a state-passing function applied once per element in vector
order. -/

inductive Heuristic
  | damage (target : Nat) (amount : Nat)
  | debuff (target : Nat) (amount : Nat)
  | move (x y : Int)
  deriving DecidableEq, Repr

structure Consider where
  action : Action
  heuristics : List Heuristic
  deriving DecidableEq, Repr

structure Considerations where
  inner : Option (List Consider)
  deriving DecidableEq, Repr

def Considerations.new (l : List Consider) : Considerations := ⟨some l⟩

/-- `Considerations::for_each` (consider.rs lines 125–135):
`this.0.take()` empties the option; once exhausted the method returns
the runtime error instead of iterating again. -/
def Considerations.forEach {σ : Type u} (this : Considerations)
    (f : σ → Consider → σ) (init : σ) :
    Except String (σ × Considerations) :=
  match this.inner with
  | none => .error "Considerations list has been exhausted"
  | some l => .ok (l.foldl f init, ⟨none⟩)

/-! ### Stats, statuses and status infliction
(`src/character.rs`, `src/status.rs`)

`u32` arithmetic: `+` and `*` wrap modulo `2^32`, `saturating_sub` is
truncated `Nat` subtraction, `saturating_add` clamps at `u32::MAX`. -/

def add32 (a b : Nat) : Nat := (a + b) % 4294967296

def mul32 (a b : Nat) : Nat := (a * b) % 4294967296

def satAdd32 (a b : Nat) : Nat := min (a + b) 4294967295

structure Stats where
  heart : Nat
  soul : Nat
  power : Nat
  defense : Nat
  magic : Nat
  resistance : Nat
  deriving DecidableEq, Repr

/-- `Stats::default()`: all six stats zero. -/
def Stats.zero : Stats := ⟨0, 0, 0, 0, 0, 0⟩

instance : Inhabited Stats := ⟨Stats.zero⟩

/-- `impl Add for Stats` (componentwise `u32` addition). -/
def Stats.addW (a b : Stats) : Stats :=
  ⟨add32 a.heart b.heart, add32 a.soul b.soul, add32 a.power b.power,
   add32 a.defense b.defense, add32 a.magic b.magic,
   add32 a.resistance b.resistance⟩

/-- `impl Mul for Stats` (componentwise `u32` multiplication). -/
def Stats.mulW (a b : Stats) : Stats :=
  ⟨mul32 a.heart b.heart, mul32 a.soul b.soul, mul32 a.power b.power,
   mul32 a.defense b.defense, mul32 a.magic b.magic,
   mul32 a.resistance b.resistance⟩

/-- `impl Mul<u32> for Stats`. -/
def Stats.mulScalarW (a : Stats) (n : Nat) : Stats :=
  ⟨mul32 a.heart n, mul32 a.soul n, mul32 a.power n,
   mul32 a.defense n, mul32 a.magic n, mul32 a.resistance n⟩

/-- `impl Div<u32> for Stats`. -/
def Stats.divScalar (a : Stats) (n : Nat) : Stats :=
  ⟨a.heart / n, a.soul / n, a.power / n,
   a.defense / n, a.magic / n, a.resistance / n⟩

inductive StatusDuration
  | rest
  | turn
  deriving DecidableEq, Repr

/-- `status::Debuff`: a magnitude plus the `on_debuff` Lua expression,
modelled as a pure function of the magnitude (the `cache` cell is
semantically transparent for a pure script, and a script failure falls
back to `Stats::default()` inside the function itself). -/
structure DebuffEffect where
  magnitude : Nat
  onDebuffScript : Nat → Stats

inductive Effect
  | staticDebuff (stats : Stats)
  | debuff (d : DebuffEffect)

structure Status where
  name : String
  icon : String
  duration : StatusDuration
  effect : Effect

/-- `Debuff::get`: evaluate the script on the current magnitude. -/
def DebuffEffect.get (d : DebuffEffect) : Option Stats :=
  some (d.onDebuffScript d.magnitude)

/-- `Status::add_magnitude` (status.rs lines 62–74): saturating-add the
amount into a `Debuff` effect's magnitude; a `StaticDebuff` has no
magnitude and is left unchanged (a warning is logged). -/
def Status.add_magnitude (s : Status) (amount : Nat) : Status :=
  match s.effect with
  | .debuff d =>
    { s with effect := .debuff ⟨satAdd32 d.magnitude amount, d.onDebuffScript⟩ }
  | .staticDebuff _ => s

/-- `Status::on_debuff` (status.rs lines 76–81). -/
def Status.on_debuff (s : Status) : Option Stats :=
  match s.effect with
  | .debuff d => d.get
  | .staticDebuff st => some st

/-! The statuses of a `Piece` are a `HashMap<Box<str>, Status>` —
modelled as an association list whose keys are unique. -/

def KeysUnique (m : List (String × Status)) : Prop :=
  (m.map Prod.fst).Nodup

/-- `HashMap` lookup on the association-list model. -/
def lookupStatus : List (String × Status) → String → Option Status
  | [], _ => none
  | (k1, v) :: rest, k => if k1 = k then some v else lookupStatus rest k

/-- Modify the (unique) entry for `k` in place, as `HashMap`'s entry
API does. -/
def modifyStatus : List (String × Status) → String → (Status → Status) →
    List (String × Status)
  | [], _, _ => []
  | (k1, v) :: rest, k, f =>
    if k1 = k then (k1, f v) :: rest else (k1, v) :: modifyStatus rest k f

inductive InflictError
  | notFound (key : String)

/-- `character::inflict` (character.rs lines 64–84): look the status id
up in the global `Status` resource table (`NotFound` error when
missing), insert the resource's status under that id if the character
does not already carry it (`entry(..).or_insert_with`), and when a
magnitude is supplied merge it into the (now present) entry with
`add_magnitude`. -/
def inflict (resources statuses : List (String × Status)) (key : String)
    (magnitude : Option Nat) :
    Except InflictError (List (String × Status)) :=
  match lookupStatus resources key with
  | none => .error (.notFound key)
  | some status =>
    let statuses1 :=
      match lookupStatus statuses key with
      | some _ => statuses
      | none => statuses ++ [(key, status)]
    match magnitude with
    | some m => .ok (modifyStatus statuses1 key (fun s => s.add_magnitude m))
    | none => .ok statuses1

/-! ### Character sheets and derived stats (`src/character.rs`) -/

structure Sheet where
  level : Nat
  speed : Nat
  bases : Stats
  growths : Stats
  growth_bonuses : Stats

/-- `Sheet::stats` (character.rs lines 380–393):
`bases + (growths + growth_bonuses * BONUS_WEIGHTS) * level / 100` in
`u32` arithmetic. -/
def Sheet.stats (s : Sheet) : Stats :=
  Stats.addW s.bases
    (Stats.divScalar
      (Stats.mulScalarW
        (Stats.addW s.growths
          (Stats.mulW s.growth_bonuses ⟨20, 20, 10, 10, 10, 10⟩))
        s.level)
      100)

/-- `character::Piece`, restricted to the fields `stat_outcomes`
reads. -/
structure Piece where
  sheet : Sheet
  hp : Int
  sp : Int
  statuses : List (String × Status)
  x : Int
  y : Int
  actionDelay : Nat
  playerControlled : Bool

structure StatOutcomes where
  stats : Stats
  buffs : Stats
  debuffs : Stats

/-- `Piece::stat_outcomes` (character.rs lines 259–281): `buffs` is
always `Stats::default()`, `debuffs` accumulates every status's
`on_debuff` stats, and each derived stat is the sheet-derived stat
`saturating_sub` the debuff plus the (zero) buff. -/
def Piece.stat_outcomes (p : Piece) : StatOutcomes :=
  let buffs := Stats.zero
  let debuffs :=
    ((p.statuses.map Prod.snd).filterMap Status.on_debuff).foldl
      Stats.addW Stats.zero
  let s := p.sheet.stats
  { stats :=
      ⟨add32 (s.heart - debuffs.heart) buffs.heart,
       add32 (s.soul - debuffs.soul) buffs.soul,
       add32 (s.power - debuffs.power) buffs.power,
       add32 (s.defense - debuffs.defense) buffs.defense,
       add32 (s.magic - debuffs.magic) buffs.magic,
       add32 (s.resistance - debuffs.resistance) buffs.resistance⟩,
    buffs := buffs,
    debuffs := debuffs }

def Piece.stats (p : Piece) : Stats := p.stat_outcomes.stats

/-! ### Spell affinities (`src/spell.rs`) -/

inductive Affinity
  | uncastable
  | weak
  | average
  | strong
  deriving DecidableEq, Repr

/-- `Affinity::magnitude` (spell.rs lines 48–57): `Uncastable → 0`,
`Weak → m / 2`, `Average → m * 3 / 4`, `Strong → m`, in `u32`
arithmetic (the `m * 3` wraps modulo `2^32`). -/
def Affinity.magnitude : Affinity → Nat → Nat
  | .uncastable, _ => 0
  | .weak, m => m / 2
  | .average, m => mul32 m 3 / 4
  | .strong, m => m

/-! ### Association-list map lemmas -/

theorem lookupStatus_modifyStatus_self (m : List (String × Status))
    (k : String) (f : Status → Status) (v : Status)
    (h : lookupStatus m k = some v) :
    lookupStatus (modifyStatus m k f) k = some (f v) := by
  induction m with
  | nil => simp [lookupStatus] at h
  | cons kv rest ih =>
    obtain ⟨k1, v1⟩ := kv
    by_cases hk : k1 = k
    · subst hk
      have h1 : v1 = v := by simpa [lookupStatus] using h
      subst h1
      simp [modifyStatus, lookupStatus]
    · simp only [lookupStatus, if_neg hk] at h
      simp only [modifyStatus, if_neg hk, lookupStatus]
      exact ih h

theorem lookupStatus_modifyStatus_ne (m : List (String × Status))
    (k k' : String) (f : Status → Status) (h : k' ≠ k) :
    lookupStatus (modifyStatus m k f) k' = lookupStatus m k' := by
  induction m with
  | nil => rfl
  | cons kv rest ih =>
    obtain ⟨k1, v1⟩ := kv
    by_cases hk : k1 = k
    · subst hk
      have hne : ¬(k1 = k') := fun hh => h hh.symm
      simp only [modifyStatus, if_pos rfl, lookupStatus, if_neg hne]
    · simp only [modifyStatus, if_neg hk, lookupStatus]
      by_cases hk' : k1 = k'
      · rw [if_pos hk', if_pos hk']
      · rw [if_neg hk', if_neg hk']
        exact ih

theorem length_modifyStatus (m : List (String × Status)) (k : String)
    (f : Status → Status) : (modifyStatus m k f).length = m.length := by
  induction m with
  | nil => rfl
  | cons kv rest ih =>
    obtain ⟨k1, v1⟩ := kv
    by_cases hk : k1 = k
    · simp [modifyStatus, hk]
    · simp [modifyStatus, hk, ih]

theorem mapFst_modifyStatus (m : List (String × Status)) (k : String)
    (f : Status → Status) :
    (modifyStatus m k f).map Prod.fst = m.map Prod.fst := by
  induction m with
  | nil => rfl
  | cons kv rest ih =>
    obtain ⟨k1, v1⟩ := kv
    by_cases hk : k1 = k
    · simp [modifyStatus, hk]
    · simp [modifyStatus, hk, ih]

theorem foldl_push_eq (l acc : List Consider) :
    l.foldl (fun a c => a ++ [c]) acc = acc ++ l := by
  induction l generalizing acc with
  | nil => simp
  | cons x xs ih => simp [List.foldl, ih]

/-- Every component of a sheet-derived stat block fits in a `u32` (the
final componentwise addition reduces modulo `2^32`). -/
theorem sheet_stats_lt (s : Sheet) :
    s.stats.heart < 4294967296 ∧ s.stats.soul < 4294967296 ∧
    s.stats.power < 4294967296 ∧ s.stats.defense < 4294967296 ∧
    s.stats.magic < 4294967296 ∧ s.stats.resistance < 4294967296 := by
  refine ⟨?_, ?_, ?_, ?_, ?_, ?_⟩ <;>
    · simp only [Sheet.stats, Stats.addW, add32]
      omega

/-! ### Claim theorems -/

/-- **C6.** A `Considerations` list is consumed at most once: the first
`for_each` traversal invokes the callback on every contained `Consider`
exactly once, in vector order (instantiating the callback with a trace
accumulator yields exactly the underlying list), and leaves the
exhausted state behind, so that any subsequent attempt to consume the
same `Considerations` value fails with the runtime error
"Considerations list has been exhausted" rather than silently
re-iterating. -/
theorem considerations_consumed_once (l : List Consider) :
    (Considerations.new l).forEach (fun a c => a ++ [c]) [] =
      .ok (l, (⟨none⟩ : Considerations)) ∧
    (∀ {σ : Type} (f : σ → Consider → σ) (init : σ),
      Considerations.forEach ⟨none⟩ f init =
        .error "Considerations list has been exhausted") := by
  constructor
  · simp only [Considerations.new, Considerations.forEach]
    rw [foldl_push_eq]
    simp
  · intro σ f init
    rfl

/-- **C8.** Inflicting a status the character already carries never
inserts a duplicate entry: the result is still uniquely keyed, has the
same number of entries, the existing entry is merged in place (with
`add_magnitude`, which saturating-adds into a `Debuff` magnitude and
leaves a `StaticDebuff` unchanged), and every other key's entry is
untouched. -/
theorem inflict_merges_existing (resources statuses : List (String × Status))
    (key : String) (m : Nat) (r0 s0 : Status)
    (hres : lookupStatus resources key = some r0)
    (hcar : lookupStatus statuses key = some s0)
    (huniq : KeysUnique statuses) :
    inflict resources statuses key (some m) =
      .ok (modifyStatus statuses key (fun s => s.add_magnitude m)) ∧
    KeysUnique (modifyStatus statuses key (fun s => s.add_magnitude m)) ∧
    (modifyStatus statuses key (fun s => s.add_magnitude m)).length =
      statuses.length ∧
    lookupStatus (modifyStatus statuses key (fun s => s.add_magnitude m))
      key = some (s0.add_magnitude m) ∧
    (∀ k, k ≠ key →
      lookupStatus (modifyStatus statuses key (fun s => s.add_magnitude m))
        k = lookupStatus statuses k) ∧
    (∀ d, s0.effect = .debuff d → (s0.add_magnitude m).effect =
      .debuff ⟨satAdd32 d.magnitude m, d.onDebuffScript⟩) ∧
    (∀ st, s0.effect = .staticDebuff st → s0.add_magnitude m = s0) := by
  refine ⟨?_, ?_, length_modifyStatus _ _ _,
    lookupStatus_modifyStatus_self _ _ _ _ hcar,
    fun k hk => lookupStatus_modifyStatus_ne _ _ _ _ hk, ?_, ?_⟩
  · simp only [inflict, hres, hcar]
  · unfold KeysUnique
    rw [mapFst_modifyStatus]
    exact huniq
  · intro d hd
    simp [Status.add_magnitude, hd]
  · intro st hst
    simp [Status.add_magnitude, hst]

/-- **C9.** `stat_outcomes` is total, `buffs` is always the zero stat
block, and each derived stat equals the sheet-derived stat minus the
accumulated debuffs for that stat with truncated (saturating-at-zero)
subtraction; consequently no derived stat ever exceeds its
sheet-derived value, and debuffs exceeding the base stat cannot
underflow. -/
theorem stat_outcomes_saturates (p : Piece) :
    p.stat_outcomes.buffs = Stats.zero ∧
    p.stat_outcomes.stats.heart =
      p.sheet.stats.heart - p.stat_outcomes.debuffs.heart ∧
    p.stat_outcomes.stats.soul =
      p.sheet.stats.soul - p.stat_outcomes.debuffs.soul ∧
    p.stat_outcomes.stats.power =
      p.sheet.stats.power - p.stat_outcomes.debuffs.power ∧
    p.stat_outcomes.stats.defense =
      p.sheet.stats.defense - p.stat_outcomes.debuffs.defense ∧
    p.stat_outcomes.stats.magic =
      p.sheet.stats.magic - p.stat_outcomes.debuffs.magic ∧
    p.stat_outcomes.stats.resistance =
      p.sheet.stats.resistance - p.stat_outcomes.debuffs.resistance ∧
    p.stat_outcomes.stats.heart ≤ p.sheet.stats.heart ∧
    p.stat_outcomes.stats.soul ≤ p.sheet.stats.soul ∧
    p.stat_outcomes.stats.power ≤ p.sheet.stats.power ∧
    p.stat_outcomes.stats.defense ≤ p.sheet.stats.defense ∧
    p.stat_outcomes.stats.magic ≤ p.sheet.stats.magic ∧
    p.stat_outcomes.stats.resistance ≤ p.sheet.stats.resistance := by
  obtain ⟨h1, h2, h3, h4, h5, h6⟩ := sheet_stats_lt p.sheet
  refine ⟨rfl, ?_⟩
  simp only [Piece.stat_outcomes, Stats.zero, add32]
  omega

/-- **C10 counterexample.** At `m = u32::MAX` the `Average` affinity
does not yield `m * 3 / 4`: the `u32` multiplication `m * 3` wraps
modulo `2^32`, so the code yields `1073741823` where exact arithmetic
yields `3221225471`. -/
theorem affinity_average_wraps :
    Affinity.magnitude .average 4294967295 = 1073741823 ∧
    Affinity.magnitude .average 4294967295 ≠ 4294967295 * 3 / 4 := by
  decide

/-- **C10 (amended).** For every `u32` magnitude `m`,
`Affinity::magnitude` is at most `m`; `Uncastable` yields exactly `0`,
`Strong` exactly `m`, `Weak` exactly `m / 2`, and `Average` yields
`(m * 3 mod 2^32) / 4`, which equals `m * 3 / 4` whenever the
multiplication does not overflow. -/
theorem affinity_magnitude_bounds (a : Affinity) (m : Nat)
    (h : m < 4294967296) :
    Affinity.magnitude a m ≤ m ∧
    Affinity.magnitude .uncastable m = 0 ∧
    Affinity.magnitude .strong m = m ∧
    Affinity.magnitude .weak m = m / 2 ∧
    Affinity.magnitude .average m = mul32 m 3 / 4 ∧
    (m * 3 < 4294967296 →
      Affinity.magnitude .average m = m * 3 / 4) := by
  refine ⟨?_, rfl, rfl, rfl, rfl, ?_⟩
  · cases a with
    | uncastable => exact Nat.zero_le m
    | weak => exact Nat.div_le_self m 2
    | average =>
      simp only [Affinity.magnitude, mul32]
      rcases Nat.lt_or_ge (m * 3) 4294967296 with hc | hc
      · rw [Nat.mod_eq_of_lt hc]
        omega
      · have hm : m * 3 % 4294967296 < 4294967296 :=
          Nat.mod_lt _ (by norm_num)
        have h4 : 4294967296 ≤ 4 * m := by omega
        omega
    | strong => exact Nat.le_refl m
  · intro h3
    simp only [Affinity.magnitude, mul32, Nat.mod_eq_of_lt h3]

/-- A concrete carried status for witnesses: a bleed debuff of
magnitude 3 whose script reports a defense loss equal to the
magnitude. -/
def statusBleed : Status :=
  ⟨"bleed", "bleed_icon", .rest,
    .debuff ⟨3, fun mag => ⟨0, 0, 0, mag, 0, 0⟩⟩⟩

/-- Witness for C8 at a concrete carried status. -/
theorem inflict_merges_existing_witness :
    lookupStatus
      (modifyStatus [("bleed", statusBleed)] "bleed"
        (fun s => s.add_magnitude 5)) "bleed" =
      some (statusBleed.add_magnitude 5) ∧
    (modifyStatus [("bleed", statusBleed)] "bleed"
      (fun s => s.add_magnitude 5)).length = 1 :=
  ⟨(inflict_merges_existing [("bleed", statusBleed)] [("bleed", statusBleed)]
      "bleed" 5 statusBleed statusBleed rfl rfl (by simp [KeysUnique])).2.2.2.1,
   (inflict_merges_existing [("bleed", statusBleed)] [("bleed", statusBleed)]
      "bleed" 5 statusBleed statusBleed rfl rfl (by simp [KeysUnique])).2.2.1⟩

/-- Witness for C10 at `m = 100`. -/
theorem affinity_magnitude_bounds_witness :
    Affinity.magnitude .average 100 ≤ 100 ∧
    Affinity.magnitude .average 100 = 100 * 3 / 4 :=
  ⟨(affinity_magnitude_bounds .average 100 (by norm_num)).1,
   (affinity_magnitude_bounds .average 100 (by norm_num)).2.2.2.2.2
     (by norm_num)⟩

/-! ### Concrete states for witnesses and counterexamples -/

/-- A world whose (only, hence ready) actor is player-controlled. -/
def wPlayer : World := ⟨[⟨0, 0, 10, 5, 0, true, .friendly⟩]⟩

/-- A world whose (only, hence ready) actor is AI-controlled. -/
def wAI : World := ⟨[⟨2, 2, 8, 3, 0, false, .enemy⟩]⟩

def clientFresh : Client := Client.new 0

/-- The encoded payload of an `Action(Move(3, 4))` packet. -/
def movePayload : List Nat := encodeClientPacket (.action (.move 3 4))

def clientWithMove : Client := { Client.new 0 with inbox := [movePayload] }

/-- A decision policy that always waits one time unit. -/
def waitPolicy : World → Action := fun _ => .wait 1

/-- **C1.** An inbound `Action` packet is applied (through the single
`perform_action` path) if and only if the world's currently-ready actor
is player-controlled; otherwise it is rejected by queueing a `World`
snapshot resync to the sending client, and the rejected action does not
mutate the world. -/
theorem action_dispatch_ownership (now : Nat) (w : World) (c : Client)
    (a : Action) :
    ((nextCharacter w).playerControlled = true →
      handlePacket now w c (.action a) = (performAction w a, c)) ∧
    ((nextCharacter w).playerControlled = false →
      handlePacket now w c (.action a) =
        (w, { c with outQueue := c.outQueue ++ [.world w] })) := by
  constructor <;> · intro h; simp [handlePacket, h]

/-- Witness for C1: the ready player-controlled actor's action is
applied, the AI-turn rejection leaves the world untouched and queues a
resync. -/
theorem action_dispatch_ownership_witness :
    handlePacket 0 wPlayer clientFresh (.action (.move 3 4)) =
      (performAction wPlayer (.move 3 4), clientFresh) ∧
    handlePacket 0 wAI clientFresh (.action (.move 3 4)) =
      (wAI, { clientFresh with
              outQueue := clientFresh.outQueue ++ [.world wAI] }) :=
  ⟨(action_dispatch_ownership 0 wPlayer clientFresh (.move 3 4)).1
     (by decide),
   (action_dispatch_ownership 0 wAI clientFresh (.move 3 4)).2
     (by decide)⟩

/-- **C2 (code bug).** The server's per-packet dispatch path panics on
a malformed payload: `client_tick` unwraps the decode result, so a
payload that is not a well-formed packet encoding (here the single byte
`0xFF`) drives the tick into the modelled panic instead of a
`Malformed` error. -/
theorem malformed_payload_panics :
    decodeClientPacket [255] = none ∧
    processPayloads 0 wPlayer clientFresh [[255]] = none ∧
    clientTick 0 wPlayer { clientFresh with inbox := [[255]] } =
      (wPlayer, .error .panic) := by
  refine ⟨rfl, rfl, rfl⟩

/-- **C3 counterexample.** A valid player action applied from a
client's `Action` packet does not trigger a broadcast in the `instance`
loop: with a single player-controlled actor, the iteration applies the
move (the world observably changes) yet the connected client's outbound
queue contains no `World` packet, and the loop re-enters the idle
awaiting-input branch. -/
theorem player_action_without_broadcast :
    instanceStep 0 waitPolicy wPlayer [] [clientWithMove] =
      some (⟨[⟨3, 4, 10, 5, 1, true, .friendly⟩]⟩, [Client.new 0]) ∧
    (⟨[⟨3, 4, 10, 5, 1, true, .friendly⟩]⟩ : World) ≠ wPlayer ∧
    (Client.new 0).outQueue.any isWorldPacket = false ∧
    (nextCharacter ⟨[⟨3, 4, 10, 5, 1, true, .friendly⟩]⟩).playerControlled
      = true := by
  refine ⟨by decide, by decide, by decide, by decide⟩

/-- **C3 (amended).** The `instance` loop queues a full `World`
snapshot to every connected client after each non-player action
application (`Server::tick` returning `true`), before re-entering the
idle state; when the ready actor is player-controlled — in particular
after a player action whose successor turn is again player-controlled —
the scheduler phase broadcasts nothing. -/
theorem broadcast_after_ai_action (policy : World → Action) (w : World)
    (cs : List Client) :
    ((nextCharacter w).playerControlled = false →
      (broadcastPhase policy w cs).1 = performAction w (policy w) ∧
      ∀ c ∈ (broadcastPhase policy w cs).2,
        c.outQueue.getLast? = some (.world (performAction w (policy w)))) ∧
    ((nextCharacter w).playerControlled = true →
      broadcastPhase policy w cs = (w, cs)) := by
  constructor
  · intro h
    have hs : serverTick policy w = (performAction w (policy w), true) := by
      simp [serverTick, h]
    simp only [broadcastPhase, hs]
    refine ⟨by simp, ?_⟩
    intro c hc
    simp only [List.mem_map] at hc
    obtain ⟨c0, _, rfl⟩ := hc
    simp [queueWorld]
  · intro h
    have hs : serverTick policy w = (w, false) := by
      simp [serverTick, h]
    simp [broadcastPhase, hs]

/-- Witness for the amended C3: after the AI world's turn resolves, the
sole connected client's queue ends with the post-action snapshot. -/
theorem broadcast_after_ai_action_witness :
    (broadcastPhase waitPolicy wAI [Client.new 0]).1 =
      performAction wAI (.wait 1) ∧
    ∀ c ∈ (broadcastPhase waitPolicy wAI [Client.new 0]).2,
      c.outQueue.getLast? = some (.world (performAction wAI (.wait 1))) :=
  (broadcast_after_ai_action waitPolicy wAI [Client.new 0]).1 (by decide)

/-- **C4 counterexample.** A client accepted into the `instance` loop
is first queued a `Ping`, not a `World` snapshot: after the accept
phase a fresh client's outbound queue is exactly `[Ping]`. -/
theorem instance_first_packet_ping :
    (acceptClient (Client.new 7)).outQueue = [ServerPacket.ping] ∧
    isWorldPacket ServerPacket.ping = false := by
  decide

/-- **C4 (amended).** In the per-connection path of `main.rs`, the
first (and only) prologue frame written after accept decodes to an
unsolicited `World` snapshot of the current world, before any client
packet is read; in the `instance` router path, by contrast, a freshly
accepted client's first queued packet is a `Ping`. -/
theorem connection_sends_world_first (w : World) (c : Client)
    (hw : w.WF)
    (hlen : (encodeServerPacket (.world w)).length < 4294967296)
    (hq : c.outQueue = []) :
    (connectionInitialFrames w).head? =
      some (encodeFrame (encodeServerPacket (.world w))) ∧
    decodeFrame (encodeFrame (encodeServerPacket (.world w))) =
      some (encodeServerPacket (.world w), []) ∧
    decodeServerPacket (encodeServerPacket (.world w)) = some (.world w) ∧
    (acceptClient c).outQueue = [ServerPacket.ping] := by
  refine ⟨rfl, ?_, decodeServerPacket_encodeServerPacket _ hw, ?_⟩
  · have := decodeFrame_encodeFrame (encodeServerPacket (.world w)) [] hlen
    simpa using this
  · simp [acceptClient, hq]

/-- Witness for the amended C4 at a concrete world and fresh client. -/
theorem connection_sends_world_first_witness :
    (connectionInitialFrames wAI).head? =
      some (encodeFrame (encodeServerPacket (.world wAI))) ∧
    decodeFrame (encodeFrame (encodeServerPacket (.world wAI))) =
      some (encodeServerPacket (.world wAI), []) ∧
    decodeServerPacket (encodeServerPacket (.world wAI)) =
      some (.world wAI) ∧
    (acceptClient (Client.new 0)).outQueue = [ServerPacket.ping] :=
  connection_sends_world_first wAI (Client.new 0) (by decide) (by decide)
    rfl

/-- **C5.** A session more than 10 seconds past its last liveness reset
(the reset happens only at packet receipt, see `handlePacket_ping`)
yields `Error::Timeout` on its next tick and is removed from the active
client set, and processing the removal leaves the world exactly as it
would have been without that session — its pieces are released, not
deleted. -/
theorem timeout_drops_session (now : Nat) (w : World) (c : Client)
    (rest : List Client) (hin : c.inbox = []) (hstale : 10 < now - c.ping) :
    clientTick now w c = (w, .error .timeout) ∧
    processClients now w (c :: rest) = processClients now w rest := by
  have ht : clientTick now w c = (w, .error .timeout) := by
    simp only [clientTick, hin, processPayloads, if_pos hstale]
  refine ⟨ht, ?_⟩
  simp only [processClients, ht]

/-- Witness for C5: a fresh-at-time-0 client observed at time 11. -/
theorem timeout_drops_session_witness :
    clientTick 11 wPlayer clientFresh = (wPlayer, .error .timeout) ∧
    processClients 11 wPlayer [clientFresh] =
      processClients 11 wPlayer [] :=
  timeout_drops_session 11 wPlayer clientFresh [] rfl (by decide)

/-- **C7.** Round trip: for every well-formed packet of either family,
decoding the bytes produced by encoding it yields the packet back. -/
theorem packet_roundtrip :
    (∀ p : ClientPacket, p.WF →
      decodeClientPacket (encodeClientPacket p) = some p) ∧
    (∀ p : ServerPacket, p.WF →
      decodeServerPacket (encodeServerPacket p) = some p) :=
  ⟨decodeClientPacket_encodeClientPacket,
   decodeServerPacket_encodeServerPacket⟩

/-- Witness for C7 covering all seven packet variants. -/
theorem packet_roundtrip_witness :
    decodeClientPacket (encodeClientPacket .ping) = some .ping ∧
    decodeClientPacket (encodeClientPacket (.action (.move 3 4))) =
      some (.action (.move 3 4)) ∧
    decodeClientPacket (encodeClientPacket (.authenticate [97])) =
      some (.authenticate [97]) ∧
    decodeClientPacket (encodeClientPacket (.route [1, 2])) =
      some (.route [1, 2]) ∧
    decodeServerPacket (encodeServerPacket .ping) = some .ping ∧
    decodeServerPacket (encodeServerPacket (.message [104, 105])) =
      some (.message [104, 105]) ∧
    decodeServerPacket (encodeServerPacket (.world wPlayer)) =
      some (.world wPlayer) :=
  ⟨packet_roundtrip.1 _ (by decide), packet_roundtrip.1 _ (by decide),
   packet_roundtrip.1 _ (by decide), packet_roundtrip.1 _ (by decide),
   packet_roundtrip.2 _ (by decide), packet_roundtrip.2 _ (by decide),
   packet_roundtrip.2 _ (by decide)⟩

end Esprit
